import Mathlib

/-!
Verification of the Exam Composition & Scoring Engine of the reviewer
backend (`src/app/exam.py`).  The Python functions are shallowly embedded:
strings stay strings (the ASCII behaviour of `str.lower` / `str.isalnum` /
`str.isspace` is modelled by the corresponding `Char` predicates, acting on
the character list of the string), Python floats become exact rationals,
`int(x)` becomes truncation toward zero, `round(x, 2)` becomes
round-half-to-even at two decimals, MongoDB object ids become naturals, and
each use of `random.sample` is abstracted by a sampler parameter constrained
(by `IsSampler`) to return the requested number of elements drawn from the
given list without replacement.

Rational arithmetic inside executable definitions is written with
`mkRat`-based helpers (`qadd`, `qsub`, `qmul`, `intToQ`) rather than the
`Field ℚ` operations, so that every definition evaluates by kernel
reduction; the bridge lemmas `qadd_eq`, `qsub_eq`, `qmul_eq`, `intToQ_eq`
identify them with the ordinary operations.
-/

namespace ExamEngine

/-- Kernel-reducible embedding of `ℤ` into `ℚ`. -/
def intToQ (z : ℤ) : ℚ := mkRat z 1

/-- Kernel-reducible addition on `ℚ` (equal to `+` by `qadd_eq`). -/
def qadd (a b : ℚ) : ℚ := mkRat (a.num * b.den + b.num * a.den) (a.den * b.den)

/-- Kernel-reducible subtraction on `ℚ` (equal to `-` by `qsub_eq`). -/
def qsub (a b : ℚ) : ℚ := mkRat (a.num * b.den - b.num * a.den) (a.den * b.den)

/-- Kernel-reducible multiplication on `ℚ` (equal to `*` by `qmul_eq`). -/
def qmul (a b : ℚ) : ℚ := mkRat (a.num * b.num) (a.den * b.den)

/-- Python `int(q)` on a rational: truncation toward zero. -/
def pyint (q : ℚ) : ℤ := if 0 ≤ q then Rat.floor q else -Rat.floor (qsub 0 q)

/-- Python `round(q)` (banker's rounding): round half to even. -/
def pyRoundHalfEven (q : ℚ) : ℤ :=
  if qsub q (intToQ (Rat.floor q)) = mkRat 1 2 then
    (if Rat.floor q % 2 = 0 then Rat.floor q else Rat.floor q + 1)
  else Rat.floor (qadd q (mkRat 1 2))

/-- Python `round(q, 2)`: round half to even at two decimal places. -/
def pyRound2 (q : ℚ) : ℚ := mkRat (pyRoundHalfEven (qmul q (intToQ 100))) 100

/-- Python `s.lower()` (ASCII). -/
def pyLower (s : String) : String := String.mk (s.data.map Char.toLower)

/-- Python `s.upper()` (ASCII). -/
def pyUpper (s : String) : String := String.mk (s.data.map Char.toUpper)

/-- Python `s.strip()`: drop leading and trailing whitespace. -/
def pyStrip (s : String) : String :=
  String.mk (((s.data.dropWhile Char.isWhitespace).reverse.dropWhile Char.isWhitespace).reverse)

/-- Does the first character list start with the second? -/
def startsWithChars : List Char → List Char → Bool
  | _, [] => true
  | [], _ :: _ => false
  | c :: cs, p :: ps => c = p && startsWithChars cs ps

/-- Python `s.startswith(p)`. -/
def pyStarts (s p : String) : Bool := startsWithChars s.data p.data

/-- Worker for `pySplit`: the accumulator holds the current token reversed. -/
def splitTokens : List Char → List Char → List String
  | [], acc => if acc.isEmpty then [] else [String.mk acc.reverse]
  | c :: cs, acc =>
    if c.isWhitespace then
      if acc.isEmpty then splitTokens cs []
      else String.mk acc.reverse :: splitTokens cs []
    else splitTokens cs (c :: acc)

/-- Python `s.split()` with no argument: whitespace-separated nonempty tokens. -/
def pySplit (s : String) : List String := splitTokens s.data []

/-- Python `"".join(l)`. -/
def joinStrings (l : List String) : String :=
  String.mk (l.foldl (fun acc t => acc ++ t.data) [])

/-- Line 15 of `exam.py`: the General Education bucket label. -/
def GENED_LABEL : String := "General Education"

/-- Line 16 of `exam.py`: the Professional Education bucket label. -/
def PROFED_LABEL : String := "Professional Education"

/-- The alias table inside `normalize_label` (`exam.py` lines 33-54). -/
def label_aliases : List (String × String) :=
  [("socialscience", "socialstudies"),
   ("socialstudies", "socialstudies"),
   ("socialscie", "socialstudies"),
   ("socialsci", "socialstudies"),
   ("socsci", "socialstudies"),
   ("mathematics", "math"),
   ("math", "math"),
   ("mathema", "math"),
   ("mathem", "math"),
   ("english", "english"),
   ("filipino", "filipino"),
   ("science", "science"),
   ("professionaleducation", "professionaleducation"),
   ("professionaledu", "professionaleducation"),
   ("professional", "professionaleducation"),
   ("profed", "professionaleducation"),
   ("generaleducation", "gened"),
   ("generale", "gened"),
   ("general", "gened"),
   ("gened", "gened")]

/-- The function `normalize_label` (`exam.py` lines 29-55): lower-case, keep only
alphanumeric characters, then resolve through the alias table. -/
def normalize_label (value : String) : String :=
  if value = "" then ""
  else
    let cleaned := String.mk ((pyLower value).data.filter Char.isAlphanum)
    match List.lookup cleaned label_aliases with
    | some v => v
    | none => cleaned

/-- The qualifier words stripped by `normalize_major_candidate`
(`exam.py` line 65). -/
def major_stopwords : List String :=
  ["major", "specialization", "specialisation", "track", "let", "secondary", "elementary"]

/-- The function `normalize_major_candidate` (`exam.py` lines 58-68): lower-case,
replace non-alphanumeric non-space characters by spaces, drop the
qualifier tokens, join and normalize. -/
def normalize_major_candidate (value : String) : String :=
  if value = "" then ""
  else
    let cleaned := String.mk ((pyLower value).data.map
      (fun ch => if ch.isAlphanum ∨ ch.isWhitespace then ch else ' '))
    let tokens := (pySplit cleaned).filter (fun t => t ∉ major_stopwords)
    normalize_label (joinStrings tokens)

/-- The function `labels_equivalent` (`exam.py` lines 71-86). -/
def labels_equivalent (a b : String) : Bool :=
  if a = "" ∨ b = "" then false
  else
    let a_norm := normalize_label a
    let b_norm := normalize_label b
    if a_norm = b_norm then true
    else if a_norm.data.getLast? = some 's' ∧ String.mk a_norm.data.dropLast = b_norm then true
    else if b_norm.data.getLast? = some 's' ∧ String.mk b_norm.data.dropLast = a_norm then true
    else
      let a_major := normalize_major_candidate a
      let b_major := normalize_major_candidate b
      if a_major ≠ "" ∧ b_major ≠ "" ∧ a_major = b_major then true
      else false

/-- The spec's own wording of label equivalence ("two labels are
equivalent if their normalized forms match exactly, or one is the other
with a trailing s removed, or their normalized major-candidate forms
match; an empty label is equivalent to nothing"), kept as a separate
definition to compare against the code's `labels_equivalent`. -/
def spec_labels_equivalent (a b : String) : Bool :=
  if a = "" ∨ b = "" then false
  else
    let a_norm := normalize_label a
    let b_norm := normalize_label b
    if a_norm = b_norm then true
    else if a_norm.data.getLast? = some 's' ∧ String.mk a_norm.data.dropLast = b_norm then true
    else if b_norm.data.getLast? = some 's' ∧ String.mk b_norm.data.dropLast = a_norm then true
    else if normalize_major_candidate a = normalize_major_candidate b then true
    else false

/-- A question-bank record (`Question` documents read by `exam.py`); the
MongoDB `_id` is modelled as a natural number. -/
structure Question where
  _id : ℕ
  exam_type : String
  subject : String
  topic : String
  difficulty : String
  question : String
  option_a : String
  option_b : String
  option_c : String
  option_d : String
  answer : String
deriving DecidableEq, Repr

/-- The student-profile fields read by `exam.py`; optional text fields that
are absent are modelled as the empty string. -/
structure StudentProfile where
  target_licensure : String
  major_specialization : String
  let_track : String
  required_passing_threshold : ℚ
deriving DecidableEq, Repr

/-- The function `subject_bucket_for` (`exam.py` lines 126-150); `none` models Python's
`None` (the question is excluded from LET quota pools). -/
def subject_bucket_for (q : Question) (profile : StudentProfile) : Option String :=
  let subject := pyStrip q.subject
  let topic := pyLower (pyStrip q.topic)
  let subject_lower := pyLower subject
  if profile.target_licensure ≠ "LET" then
    some (if subject = "" then "General" else subject)
  else if subject_lower ∈ ["profed", "professional education", "professional ed"]
      ∨ pyStarts subject_lower "prof" ∨ pyStarts topic "professional education" then
    some PROFED_LABEL
  else if subject_lower ∈ ["gened", "general education"]
      ∨ pyStarts subject_lower "gen" ∨ pyStarts subject_lower "general" then
    some GENED_LABEL
  else
    let major := pyStrip profile.major_specialization
    if major ≠ "" then
      if labels_equivalent subject major ∨ labels_equivalent topic major then some major
      else if subject_lower ∈ ["specialization", "specialisation", "major"]
          ∧ labels_equivalent topic major then some major
      else none
    else some "Specialization"

/-- A per-bucket `{correct, total}` entry of `subject_performance`. -/
structure SubjectStat where
  correct : ℕ
  total : ℕ
deriving DecidableEq, Repr

/-- An entry of the `incorrect_questions` list built by `submit_exam`. -/
structure IncorrectQuestion where
  id : ℕ
  subject : String
  topic : String
  difficulty : String
  question : String
  correct_answer : String
  student_answer : String
  reference : String
deriving DecidableEq, Repr

/-- The engine-relevant fields of an `exam_results` record. -/
structure ExamResult where
  score : ℕ
  total : ℕ
  percentage : ℚ
  result : String
  subject_performance : List (String × SubjectStat)
  incorrect_questions : List IncorrectQuestion
deriving DecidableEq, Repr

/-- The three difficulty levels (`DIFFICULTY_LEVELS`, `exam.py` line 162). -/
inductive Difficulty
  | easy
  | medium
  | hard
deriving DecidableEq, Repr

/-- The string key of a difficulty level in the question documents. -/
def Difficulty.label : Difficulty → String
  | .easy => "Easy"
  | .medium => "Medium"
  | .hard => "Hard"

/-- A difficulty-weight table: a mapping from the three levels to a
fraction (`exam.py` lines 163-165 and the `weights` dict arguments). -/
structure DifficultyWeights where
  easy : ℚ
  medium : ℚ
  hard : ℚ
deriving DecidableEq, Repr

/-- Python `weights.get(level, 0)` on a weight table. -/
def DifficultyWeights.get (w : DifficultyWeights) : Difficulty → ℚ
  | .easy => w.easy
  | .medium => w.medium
  | .hard => w.hard

/-- The table `DEFAULT_DIFFICULTY_MIX = {Easy: 0.40, Medium: 0.40, Hard: 0.20}`. -/
def DEFAULT_DIFFICULTY_MIX : DifficultyWeights := ⟨mkRat 40 100, mkRat 40 100, mkRat 20 100⟩

/-- The table `PASS_DIFFICULTY_MIX = {Easy: 0.20, Medium: 0.40, Hard: 0.40}`. -/
def PASS_DIFFICULTY_MIX : DifficultyWeights := ⟨mkRat 20 100, mkRat 40 100, mkRat 40 100⟩

/-- The table `FAIL_DIFFICULTY_MIX = {Easy: 0.60, Medium: 0.30, Hard: 0.10}`. -/
def FAIL_DIFFICULTY_MIX : DifficultyWeights := ⟨mkRat 60 100, mkRat 30 100, mkRat 10 100⟩

/-- The function `difficulty_mix_for_result` (`exam.py` lines 168-176). -/
def difficulty_mix_for_result (latest_result : Option ExamResult) : DifficultyWeights :=
  match latest_result with
  | none => DEFAULT_DIFFICULTY_MIX
  | some latest =>
    let result := pyUpper latest.result
    if result = "PASS" then PASS_DIFFICULTY_MIX
    else if result = "FAIL" then FAIL_DIFFICULTY_MIX
    else DEFAULT_DIFFICULTY_MIX

/-- An integer count per difficulty level (the `counts` dict of
`allocate_by_weight`). -/
structure DiffCounts where
  easy : ℤ
  medium : ℤ
  hard : ℤ
deriving DecidableEq, Repr

/-- Python `counts[level]`. -/
def DiffCounts.get (c : DiffCounts) : Difficulty → ℤ
  | .easy => c.easy
  | .medium => c.medium
  | .hard => c.hard

/-- Python `counts[level] += 1`. -/
def DiffCounts.bump (c : DiffCounts) : Difficulty → DiffCounts
  | .easy => { c with easy := c.easy + 1 }
  | .medium => { c with medium := c.medium + 1 }
  | .hard => { c with hard := c.hard + 1 }

/-- Python `sum(counts.values())`. -/
def DiffCounts.sum (c : DiffCounts) : ℤ := c.easy + c.medium + c.hard

/-- One step of the stable descending insertion used to model Python's
stable `sorted(..., key=fractional part, reverse=True)`. -/
def insertDesc {α : Type} (x : α × ℚ) : List (α × ℚ) → List (α × ℚ)
  | [] => [x]
  | y :: ys => if y.2 < x.2 then x :: y :: ys else y :: insertDesc x ys

/-- Python's `sorted(l, key=lambda item: item[1], reverse=True)`: a stable
sort by descending second component. -/
def sortDesc {α : Type} (l : List (α × ℚ)) : List (α × ℚ) :=
  l.foldl (fun acc x => insertDesc x acc) []

/-- The remainder-distribution loop of `allocate_by_weight`
(`exam.py` lines 190-194). -/
def distribute : List (Difficulty × ℚ) → ℤ → DiffCounts → DiffCounts
  | [], _, c => c
  | x :: rest, rem, c =>
    if rem ≤ 0 then c else distribute rest (rem - 1) (c.bump x.1)

/-- The function `allocate_by_weight` (`exam.py` lines 179-195). -/
def allocate_by_weight (total : ℤ) (weights : DifficultyWeights) : DiffCounts :=
  if total ≤ 0 then ⟨0, 0, 0⟩
  else
    let rawE := qmul (intToQ total) weights.easy
    let rawM := qmul (intToQ total) weights.medium
    let rawH := qmul (intToQ total) weights.hard
    let cE := pyint rawE
    let cM := pyint rawM
    let cH := pyint rawH
    let remainder := total - (cE + cM + cH)
    let fractional := sortDesc
      [(Difficulty.easy, qsub rawE (intToQ cE)),
       (Difficulty.medium, qsub rawM (intToQ cM)),
       (Difficulty.hard, qsub rawH (intToQ cH))]
    distribute fractional remainder ⟨cE, cM, cH⟩

instance {ε α : Type} [DecidableEq ε] [DecidableEq α] : DecidableEq (Except ε α)
  | .ok a, .ok b =>
    if h : a = b then .isTrue (by rw [h]) else .isFalse (by simp [h])
  | .ok _, .error _ => .isFalse (by simp)
  | .error _, .ok _ => .isFalse (by simp)
  | .error e, .error f =>
    if h : e = f then .isTrue (by rw [h]) else .isFalse (by simp [h])

/-- The payload of the "Not enough questions available" `HTTPException`
raised by `select_questions_with_mix`: the needed and available counts
interpolated into its detail message. -/
structure InsufficientPool where
  needed : ℤ
  available : ℕ
deriving DecidableEq, Repr

/-- The contract of Python's `random.sample(l, k)` for `k ≤ len(l)`: the
result has exactly `k` elements and is drawn from `l` without replacement
(it is a permutation of a sublist of `l`). -/
def IsSampler (sample : List Question → ℕ → List Question) : Prop :=
  ∀ l k, k ≤ l.length → (sample l k).length = k ∧ (sample l k).Subperm l

/-- The `groups` dict: partition of the pool by difficulty string
(`exam.py` lines 210-214); levels keep the pool order. -/
def groupsOf (pool : List Question) (d : Difficulty) : List Question :=
  pool.filter (fun q => q.difficulty = d.label)

/-- One iteration of the per-level selection loop of
`select_questions_with_mix` (`exam.py` lines 220-230); the state is the
pair (selected list, selected ids). -/
def selectLevel (sample : List Question → ℕ → List Question)
    (groups : Difficulty → List Question) (desired : DiffCounts)
    (st : List Question × List ℕ) (d : Difficulty) : List Question × List ℕ :=
  let need := desired.get d
  let options := (groups d).filter (fun q => q._id ∉ st.2)
  if need ≤ 0 then st
  else
    let chosen := if (options.length : ℤ) ≤ need then options else sample options need.toNat
    (st.1 ++ chosen, st.2 ++ chosen.map Question._id)

/-- The function `select_questions_with_mix` (`exam.py` lines 198-245). -/
def select_questions_with_mix (sample : List Question → ℕ → List Question)
    (pool : List Question) (total : ℤ) (weights : DifficultyWeights) :
    Except InsufficientPool (List Question) :=
  if total ≤ 0 then .ok []
  else if (pool.length : ℤ) < total then .error ⟨total, pool.length⟩
  else
    let desired := allocate_by_weight total weights
    let st := [Difficulty.easy, Difficulty.medium, Difficulty.hard].foldl
      (selectLevel sample (groupsOf pool) desired) ([], [])
    let remaining := total - (st.1.length : ℤ)
    if 0 < remaining then
      let remaining_pool := pool.filter (fun q => q._id ∉ st.2)
      if (remaining_pool.length : ℤ) < remaining then .error ⟨total, pool.length⟩
      else .ok (st.1 ++ sample remaining_pool remaining.toNat)
    else .ok st.1

/-- One step of the percent-split remainder loop of `start_exam`
(`exam.py` lines 330-334), on the pair (GenEd count, ProfEd count). -/
def bumpSplit (c : ℤ × ℤ) (label : String) : ℤ × ℤ :=
  if label = GENED_LABEL then (c.1 + 1, c.2)
  else if label = PROFED_LABEL then (c.1, c.2 + 1)
  else c

/-- The remainder-distribution loop of the base-total split
(`exam.py` lines 330-334). -/
def distributeSplit : List (String × ℚ) → ℤ → ℤ × ℤ → ℤ × ℤ
  | [], _, c => c
  | x :: rest, rem, c =>
    if rem ≤ 0 then c else distributeSplit rest (rem - 1) (bumpSplit c x.1)

/-- The 50/50 GenEd/ProfEd split of the base total with largest-remainder
correction (`exam.py` lines 313-334). -/
def split_base (base_total : ℤ) : ℤ × ℤ :=
  let rawG := qmul (intToQ base_total) (mkRat 50 100)
  let rawP := qmul (intToQ base_total) (mkRat 50 100)
  let cG := pyint rawG
  let cP := pyint rawP
  let remainder := base_total - (cG + cP)
  let fractional := sortDesc
    [(GENED_LABEL, qsub rawG (intToQ cG)), (PROFED_LABEL, qsub rawP (intToQ cP))]
  distributeSplit fractional remainder (cG, cP)

/-- The failure modes of `start_exam` modelled structurally: a missing
major for a secondary LET profile, a short bucket pool (with the needed
count, bucket label and available count of the message), or a failure
bubbled out of `select_questions_with_mix`. -/
inductive ComposeError
  | majorRequired
  | insufficientBucket (needed : ℤ) (label : String) (available : ℕ)
  | insufficientPool (needed : ℤ) (available : ℕ)
deriving DecidableEq, Repr

/-- The LET branch of `start_exam` (`exam.py` lines 300-369): bucket the
fetched questions, split the base total 50/50 between General Education
and Professional Education, select per bucket with the difficulty mix,
then select the extra major questions from the major bucket, always
excluding already-selected ids. -/
def start_exam_let (sample : List Question → ℕ → List Question)
    (question_list : List Question) (profile : StudentProfile)
    (base_total extra_major_count : ℤ) (difficulty_mix : DifficultyWeights) :
    Except ComposeError (List Question) :=
  let is_elementary := pyStarts (pyLower (pyStrip profile.let_track)) "elementary"
  let major := pyStrip profile.major_specialization
  let hasMajorBucket := major ≠ "" ∧ ¬is_elementary
  let bGen := question_list.filter (fun q => subject_bucket_for q profile = some GENED_LABEL)
  let bProf := question_list.filter (fun q => subject_bucket_for q profile = some PROFED_LABEL)
  let bMaj := if hasMajorBucket then
    question_list.filter (fun q => subject_bucket_for q profile = some major) else []
  let counts := split_base base_total
  let pool1 := bGen.filter (fun q => q._id ∉ ([] : List ℕ))
  if (pool1.length : ℤ) < counts.1 then
    .error (.insufficientBucket counts.1 GENED_LABEL pool1.length)
  else
    match select_questions_with_mix sample pool1 counts.1 difficulty_mix with
    | .error e => .error (.insufficientPool e.needed e.available)
    | .ok chosen1 =>
      let sids1 := chosen1.map Question._id
      let pool2 := bProf.filter (fun q => q._id ∉ sids1)
      if (pool2.length : ℤ) < counts.2 then
        .error (.insufficientBucket counts.2 PROFED_LABEL pool2.length)
      else
        match select_questions_with_mix sample pool2 counts.2 difficulty_mix with
        | .error e => .error (.insufficientPool e.needed e.available)
        | .ok chosen2 =>
          let sids2 := sids1 ++ chosen2.map Question._id
          if major ≠ "" ∧ extra_major_count ≠ 0 then
            let major_pool := bMaj.filter (fun q => q._id ∉ sids2)
            if (major_pool.length : ℤ) < extra_major_count then
              .error (.insufficientBucket extra_major_count "Major" major_pool.length)
            else
              match select_questions_with_mix sample major_pool extra_major_count
                  difficulty_mix with
              | .error e => .error (.insufficientPool e.needed e.available)
              | .ok extra_chosen => .ok (chosen1 ++ chosen2 ++ extra_chosen)
          else .ok (chosen1 ++ chosen2)

/-- The selection logic of `start_exam` (`exam.py` lines 262-371), from
the point where the profile, the fetched question list, the settings
counts and the latest result are in hand; database reads and the HTTP
layer are outside the engine.  Returns the selected `exam_questions`. -/
def start_exam_core (sample : List Question → ℕ → List Question)
    (question_list : List Question) (profile : StudentProfile)
    (base_total major_setting : ℤ) (latest : Option ExamResult) :
    Except ComposeError (List Question) :=
  let exam_type := profile.target_licensure
  let let_track := pyLower (pyStrip profile.let_track)
  let is_elementary := pyStarts let_track "elementary"
  let major := pyStrip profile.major_specialization
  if exam_type = "LET" ∧ ¬is_elementary ∧ major = "" then .error .majorRequired
  else
    let extra_major_count := if exam_type = "LET" ∧ ¬is_elementary then major_setting else 0
    let total_questions := base_total + extra_major_count
    let difficulty_mix := difficulty_mix_for_result latest
    if exam_type = "LET" then
      start_exam_let sample question_list profile base_total extra_major_count
        difficulty_mix
    else
      match select_questions_with_mix sample question_list total_questions difficulty_mix with
      | .error e => .error (.insufficientPool e.needed e.available)
      | .ok qs => .ok qs

/-- The student-facing view of a question returned by exam start. -/
structure StudentQuestion where
  id : ℕ
  question : String
  option_a : String
  option_b : String
  option_c : String
  option_d : String
  difficulty : String
deriving DecidableEq, Repr

/-- Modelled from the spec: the response-building step of the Composer is
missing from `src/app/exam.py` (the `start_exam` body ends at the
`exam_questions` assignment), so the projection to student-facing fields
follows the spec's produced interface `compose_exam(student_id) ->
list<(id, prompt, option_a..d, difficulty)>` with no answer key exposed. -/
def to_student_view (q : Question) : StudentQuestion :=
  ⟨q._id, q.question, q.option_a, q.option_b, q.option_c, q.option_d, q.difficulty⟩

/-- Modelled from the spec: `compose_exam` returns the selected questions
of `start_exam_core` projected to their student-facing fields, in
selection order. -/
def compose_exam (sample : List Question → ℕ → List Question)
    (question_list : List Question) (profile : StudentProfile)
    (base_total major_setting : ℤ) (latest : Option ExamResult) :
    Except ComposeError (List StudentQuestion) :=
  (start_exam_core sample question_list profile base_total major_setting latest).map
    (List.map to_student_view)

/-- Python truthiness of the optional bucket string (`if bucket:`,
`exam.py` lines 404 and 410): `None` and the empty string are falsy. -/
def truthyBucket : Option String → Option String
  | none => none
  | some b => if b = "" then none else some b

/-- Python `subject_stats.setdefault(bucket, ...)["total"] += 1`
(`exam.py` lines 405-406): association list in insertion order. -/
def bumpTotal (stats : List (String × SubjectStat)) (b : String) :
    List (String × SubjectStat) :=
  if stats.any (fun p => p.1 = b) then
    stats.map (fun p => if p.1 = b then (p.1, ⟨p.2.correct, p.2.total + 1⟩) else p)
  else stats ++ [(b, ⟨0, 1⟩)]

/-- Python `subject_stats[bucket]["correct"] += 1` (`exam.py` line 411). -/
def bumpCorrect (stats : List (String × SubjectStat)) (b : String) :
    List (String × SubjectStat) :=
  stats.map (fun p => if p.1 = b then (p.1, ⟨p.2.correct + 1, p.2.total⟩) else p)

/-- The mutable state of the scoring loop of `submit_exam`. -/
structure ScoreAcc where
  score : ℕ
  subject_stats : List (String × SubjectStat)
  incorrect : List IncorrectQuestion
deriving DecidableEq, Repr

/-- One iteration of the scoring loop of `submit_exam`
(`exam.py` lines 398-429) on the answer pair `(question_id, selected)`. -/
def score_step (bank : List Question) (profile : StudentProfile)
    (acc : ScoreAcc) (ans : ℕ × String) : ScoreAcc :=
  match bank.find? (fun q => q._id = ans.1) with
  | none => acc
  | some q =>
    let bucket := truthyBucket (subject_bucket_for q profile)
    let stats1 := match bucket with
      | some b => bumpTotal acc.subject_stats b
      | none => acc.subject_stats
    if ans.2 = q.answer then
      { acc with
        score := acc.score + 1,
        subject_stats := match bucket with
          | some b => bumpCorrect stats1 b
          | none => stats1 }
    else
      { acc with
        subject_stats := stats1,
        incorrect := acc.incorrect ++
          [{ id := q._id, subject := q.subject, topic := q.topic,
             difficulty := q.difficulty, question := q.question,
             correct_answer := q.answer, student_answer := ans.2,
             reference := if q.topic ≠ "" then "Review: " ++ q.topic
               else "Review this topic" }] }

/-- The Scorer: `submit_exam` (`exam.py` lines 393-458) from the point
where the profile and the submitted answer mapping are in hand; the
answers dict is modelled as its (question id, selected letter) pairs in
insertion order. -/
def submit_exam (bank : List Question) (profile : StudentProfile)
    (answers : List (ℕ × String)) : ExamResult :=
  let acc := answers.foldl (score_step bank profile) ⟨0, [], []⟩
  let total := answers.length
  let percentage : ℚ :=
    if total ≠ 0 then pyRound2 (qmul (mkRat acc.score total) (intToQ 100)) else 0
  let result := if profile.required_passing_threshold ≤ percentage then "PASS" else "FAIL"
  { score := acc.score, total := total, percentage := percentage, result := result,
    subject_performance := acc.subject_stats, incorrect_questions := acc.incorrect }

/-- A deterministic sampler used to instantiate theorems at concrete
inputs: take the first `k` elements. -/
def takeSampler (l : List Question) (k : ℕ) : List Question := l.take k

/-- A concrete non-LET profile (threshold 60) for instantiating theorems. -/
def wProfCLE : StudentProfile := ⟨"CLE", "", "", 60⟩

/-- A concrete secondary-LET profile with major "Math". -/
def wProfLET : StudentProfile := ⟨"LET", "Math", "Secondary", 60⟩

/-- A concrete bank question whose correct letter is `A`. -/
def wBankQ : Question := ⟨1, "CLE", "Law", "", "Easy", "q", "a", "b", "c", "d", "A"⟩

/-- A concrete General Education LET question. -/
def wQG : Question := ⟨1, "LET", "GenEd", "", "Easy", "g1", "a", "b", "c", "d", "A"⟩

/-- A concrete Professional Education LET question. -/
def wQP : Question := ⟨2, "LET", "ProfEd", "", "Easy", "p1", "a", "b", "c", "d", "B"⟩

/-- A concrete major (Math) LET question. -/
def wQM : Question := ⟨3, "LET", "Math", "", "Easy", "m1", "a", "b", "c", "d", "C"⟩

/-- Two Easy and two Medium questions with distinct ids. -/
def cq1 : Question := ⟨1, "LET", "S", "", "Easy", "q1", "a", "b", "c", "d", "A"⟩

/-- Second Easy question. -/
def cq2 : Question := ⟨2, "LET", "S", "", "Easy", "q2", "a", "b", "c", "d", "A"⟩

/-- First Medium question. -/
def cq3 : Question := ⟨3, "LET", "S", "", "Medium", "q3", "a", "b", "c", "d", "A"⟩

/-- Second Medium question. -/
def cq4 : Question := ⟨4, "LET", "S", "", "Medium", "q4", "a", "b", "c", "d", "A"⟩

/-- An answer set with one correct answer (question 1) and 106 stale
references: score 1 of total 107, so the percentage rounds to 0.93. -/
def staleAnswers : List (ℕ × String) :=
  (1, "A") :: (List.range 106).map (fun i => (i + 2, "A"))

end ExamEngine

namespace ExamEngine

theorem qadd_eq (a b : ℚ) : qadd a b = a + b := by
  have ha : ((a.den : ℚ)) ≠ 0 := Nat.cast_ne_zero.mpr a.den_nz
  have hb : ((b.den : ℚ)) ≠ 0 := Nat.cast_ne_zero.mpr b.den_nz
  rw [qadd, Rat.mkRat_eq_div]
  push_cast
  conv_rhs => rw [← Rat.num_div_den a, ← Rat.num_div_den b]
  field_simp
  try ring

theorem qsub_eq (a b : ℚ) : qsub a b = a - b := by
  have ha : ((a.den : ℚ)) ≠ 0 := Nat.cast_ne_zero.mpr a.den_nz
  have hb : ((b.den : ℚ)) ≠ 0 := Nat.cast_ne_zero.mpr b.den_nz
  rw [qsub, Rat.mkRat_eq_div]
  push_cast
  conv_rhs => rw [← Rat.num_div_den a, ← Rat.num_div_den b]
  field_simp
  try ring

theorem qmul_eq (a b : ℚ) : qmul a b = a * b := by
  have ha : ((a.den : ℚ)) ≠ 0 := Nat.cast_ne_zero.mpr a.den_nz
  have hb : ((b.den : ℚ)) ≠ 0 := Nat.cast_ne_zero.mpr b.den_nz
  rw [qmul, Rat.mkRat_eq_div]
  push_cast
  conv_rhs => rw [← Rat.num_div_den a, ← Rat.num_div_den b]
  field_simp
  try ring

theorem intToQ_eq (z : ℤ) : intToQ z = (z : ℚ) := by
  rw [intToQ, Rat.mkRat_eq_div]
  simp

theorem ratFloor_eq (q : ℚ) : Rat.floor q = ⌊q⌋ := rfl

theorem pyint_of_nonneg {q : ℚ} (h : 0 ≤ q) : pyint q = ⌊q⌋ := by
  rw [pyint, if_pos h, ratFloor_eq]

theorem half_as_mkRat : (mkRat 1 2 : ℚ) = 1 / 2 := by
  rw [Rat.mkRat_eq_div]
  norm_num

theorem pyRoundHalfEven_def (q : ℚ) :
    pyRoundHalfEven q =
      if q - (⌊q⌋ : ℚ) = 1 / 2 then (if ⌊q⌋ % 2 = 0 then ⌊q⌋ else ⌊q⌋ + 1)
      else ⌊q + 1 / 2⌋ := by
  rw [pyRoundHalfEven, qsub_eq, qadd_eq, intToQ_eq, half_as_mkRat, ratFloor_eq, ratFloor_eq]

theorem pyRoundHalfEven_ge_floor (q : ℚ) : ⌊q⌋ ≤ pyRoundHalfEven q := by
  rw [pyRoundHalfEven_def]
  split
  · split
    · exact le_refl _
    · omega
  · exact Int.floor_le_floor (by linarith [Int.floor_le q])

theorem pyRoundHalfEven_le_floor_add_one (q : ℚ) : pyRoundHalfEven q ≤ ⌊q⌋ + 1 := by
  rw [pyRoundHalfEven_def]
  split
  · split
    · omega
    · exact le_refl _
  · rw [Int.floor_le_iff]
    push_cast
    have := Int.lt_floor_add_one q
    linarith

theorem pyRoundHalfEven_mono {x y : ℚ} (h : x ≤ y) :
    pyRoundHalfEven x ≤ pyRoundHalfEven y := by
  rcases lt_or_eq_of_le (Int.floor_le_floor h) with hf | hf
  · calc pyRoundHalfEven x ≤ ⌊x⌋ + 1 := pyRoundHalfEven_le_floor_add_one x
      _ ≤ ⌊y⌋ := by omega
      _ ≤ pyRoundHalfEven y := pyRoundHalfEven_ge_floor y
  · have hxf := Int.floor_le x
    have hyf := Int.lt_floor_add_one y
    rw [← hf] at hyf
    rw [pyRoundHalfEven_def, pyRoundHalfEven_def, ← hf]
    by_cases hx : x - (⌊x⌋ : ℚ) = 1 / 2 <;> by_cases hy : y - (⌊x⌋ : ℚ) = 1 / 2
    · rw [if_pos hx, if_pos hy]
    · rw [if_pos hx, if_neg hy]
      have hyge : (⌊x⌋ : ℚ) + 1 / 2 ≤ y := by linarith
      have hygt : (⌊x⌋ : ℚ) + 1 / 2 < y :=
        lt_of_le_of_ne hyge (fun he => hy (by linarith))
      have hfl : ⌊x⌋ + 1 ≤ ⌊y + 1 / 2⌋ := by
        rw [Int.le_floor]
        push_cast
        linarith
      split <;> omega
    · rw [if_neg hx, if_pos hy]
      have hxle : x - (⌊x⌋ : ℚ) ≤ 1 / 2 := by linarith
      have hxlt : x - (⌊x⌋ : ℚ) < 1 / 2 := lt_of_le_of_ne hxle hx
      have hfl : ⌊x + 1 / 2⌋ ≤ ⌊x⌋ := by
        rw [Int.floor_le_iff]
        linarith
      split <;> omega
    · rw [if_neg hx, if_neg hy]
      exact Int.floor_le_floor (by linarith)

theorem pyRound2_eq (q : ℚ) : pyRound2 q = (pyRoundHalfEven (q * 100) : ℚ) / 100 := by
  rw [pyRound2, Rat.mkRat_eq_div, qmul_eq, intToQ_eq]
  norm_num

theorem pyRound2_mono {x y : ℚ} (h : x ≤ y) : pyRound2 x ≤ pyRound2 y := by
  rw [pyRound2_eq, pyRound2_eq]
  have := pyRoundHalfEven_mono (by linarith : x * 100 ≤ y * 100)
  have hcast : (pyRoundHalfEven (x * 100) : ℚ) ≤ (pyRoundHalfEven (y * 100) : ℚ) := by
    exact_mod_cast this
  linarith

theorem DiffCounts.bump_sum (c : DiffCounts) (d : Difficulty) :
    (c.bump d).sum = c.sum + 1 := by
  cases d <;> simp [DiffCounts.bump, DiffCounts.sum] <;> ring

theorem distribute_sum_le (l : List (Difficulty × ℚ)) (rem : ℤ) (c : DiffCounts)
    (h : 0 ≤ rem) : (distribute l rem c).sum ≤ c.sum + rem := by
  induction l generalizing rem c with
  | nil => simpa [distribute] using h
  | cons x rest ih =>
    rw [distribute]
    split
    · linarith
    · rename_i hrem
      calc (distribute rest (rem - 1) (c.bump x.1)).sum
          ≤ (c.bump x.1).sum + (rem - 1) := ih _ _ (by omega)
        _ = c.sum + rem := by rw [DiffCounts.bump_sum]; ring

theorem distribute_sum_eq (l : List (Difficulty × ℚ)) (rem : ℤ) (c : DiffCounts)
    (h0 : 0 ≤ rem) (hlen : rem ≤ l.length) : (distribute l rem c).sum = c.sum + rem := by
  induction l generalizing rem c with
  | nil =>
    simp only [List.length_nil, Nat.cast_zero] at hlen
    have : rem = 0 := le_antisymm hlen h0
    simp [distribute, this]
  | cons x rest ih =>
    rw [distribute]
    split
    · rename_i hrem
      have : rem = 0 := le_antisymm hrem h0
      simp [this]
    · rename_i hrem
      have h1 : (0:ℤ) ≤ rem - 1 := by omega
      have h2 : rem - 1 ≤ (rest.length : ℤ) := by
        simp only [List.length_cons] at hlen
        push_cast at hlen ⊢
        omega
      rw [ih _ _ h1 h2, DiffCounts.bump_sum]
      ring

theorem distribute_get_le (l : List (Difficulty × ℚ)) (rem : ℤ) (c : DiffCounts)
    (d : Difficulty) : c.get d ≤ (distribute l rem c).get d := by
  induction l generalizing rem c with
  | nil => simp [distribute]
  | cons x rest ih =>
    rw [distribute]
    split
    · exact le_refl _
    · have hb : c.get d ≤ (c.bump x.1).get d := by
        obtain ⟨xd, xq⟩ := x
        cases xd <;> cases d <;> simp only [DiffCounts.bump, DiffCounts.get] <;> omega
      exact le_trans hb (ih _ _)

theorem insertDesc_length {α : Type} (x : α × ℚ) (l : List (α × ℚ)) :
    (insertDesc x l).length = l.length + 1 := by
  induction l with
  | nil => simp [insertDesc]
  | cons y ys ih =>
    rw [insertDesc]
    split
    · simp
    · simp [ih]

theorem sortDesc_length {α : Type} (l : List (α × ℚ)) :
    (sortDesc l).length = l.length := by
  rw [sortDesc]
  suffices h : ∀ acc : List (α × ℚ),
      (l.foldl (fun acc x => insertDesc x acc) acc).length = l.length + acc.length by
    simpa using h []
  induction l with
  | nil => simp
  | cons x rest ih =>
    intro acc
    rw [List.foldl_cons, ih, insertDesc_length, List.length_cons]
    omega

theorem allocate_sum_eq (total : ℤ) (w : DifficultyWeights) (ht : 0 < total)
    (he : 0 ≤ w.easy) (hm : 0 ≤ w.medium) (hh : 0 ≤ w.hard)
    (hsum : w.easy + w.medium + w.hard = 1) :
    (allocate_by_weight total w).sum = total := by
  have htq : (0:ℚ) ≤ (total : ℚ) := by exact_mod_cast ht.le
  have hE0 : (0:ℚ) ≤ (total : ℚ) * w.easy := mul_nonneg htq he
  have hM0 : (0:ℚ) ≤ (total : ℚ) * w.medium := mul_nonneg htq hm
  have hH0 : (0:ℚ) ≤ (total : ℚ) * w.hard := mul_nonneg htq hh
  simp only [allocate_by_weight, qmul_eq, intToQ_eq]
  rw [if_neg (show ¬ total ≤ 0 by omega), pyint_of_nonneg hE0, pyint_of_nonneg hM0,
    pyint_of_nonneg hH0]
  have hfE := Int.floor_le ((total : ℚ) * w.easy)
  have hfM := Int.floor_le ((total : ℚ) * w.medium)
  have hfH := Int.floor_le ((total : ℚ) * w.hard)
  have hfE1 := Int.lt_floor_add_one ((total : ℚ) * w.easy)
  have hfM1 := Int.lt_floor_add_one ((total : ℚ) * w.medium)
  have hfH1 := Int.lt_floor_add_one ((total : ℚ) * w.hard)
  have hsum' : (total : ℚ) * w.easy + (total : ℚ) * w.medium + (total : ℚ) * w.hard
      = (total : ℚ) := by
    rw [← mul_add, ← mul_add, hsum, mul_one]
  set E := ⌊(total : ℚ) * w.easy⌋ with hE
  set M := ⌊(total : ℚ) * w.medium⌋ with hM
  set H := ⌊(total : ℚ) * w.hard⌋ with hH2
  have hle : (E : ℚ) + M + H ≤ (total : ℚ) := by linarith
  have hlt : (total : ℚ) < (E : ℚ) + M + H + 3 := by linarith
  have hleZ : E + M + H ≤ total := by exact_mod_cast hle
  have hltZ : total < E + M + H + 3 := by exact_mod_cast hlt
  rw [distribute_sum_eq _ _ _ (by omega) (by rw [sortDesc_length]; simp; omega)]
  simp only [DiffCounts.sum]
  ring

theorem allocate_sum_le (total : ℤ) (w : DifficultyWeights) (ht : 0 < total)
    (he : 0 ≤ w.easy) (hm : 0 ≤ w.medium) (hh : 0 ≤ w.hard)
    (hsum : w.easy + w.medium + w.hard ≤ 1) :
    (allocate_by_weight total w).sum ≤ total := by
  have htq : (0:ℚ) ≤ (total : ℚ) := by exact_mod_cast ht.le
  have hE0 : (0:ℚ) ≤ (total : ℚ) * w.easy := mul_nonneg htq he
  have hM0 : (0:ℚ) ≤ (total : ℚ) * w.medium := mul_nonneg htq hm
  have hH0 : (0:ℚ) ≤ (total : ℚ) * w.hard := mul_nonneg htq hh
  simp only [allocate_by_weight, qmul_eq, intToQ_eq]
  rw [if_neg (show ¬ total ≤ 0 by omega), pyint_of_nonneg hE0, pyint_of_nonneg hM0,
    pyint_of_nonneg hH0]
  have hfE := Int.floor_le ((total : ℚ) * w.easy)
  have hfM := Int.floor_le ((total : ℚ) * w.medium)
  have hfH := Int.floor_le ((total : ℚ) * w.hard)
  have hsum' : (total : ℚ) * w.easy + (total : ℚ) * w.medium + (total : ℚ) * w.hard
      ≤ (total : ℚ) := by
    rw [← mul_add, ← mul_add]
    calc (total : ℚ) * (w.easy + w.medium + w.hard) ≤ (total : ℚ) * 1 :=
        mul_le_mul_of_nonneg_left hsum htq
      _ = (total : ℚ) := mul_one _
  set E := ⌊(total : ℚ) * w.easy⌋ with hE
  set M := ⌊(total : ℚ) * w.medium⌋ with hM
  set H := ⌊(total : ℚ) * w.hard⌋ with hH2
  have hle : (E : ℚ) + M + H ≤ (total : ℚ) := by linarith
  have hleZ : E + M + H ≤ total := by exact_mod_cast hle
  calc (distribute _ (total - (E + M + H)) ⟨E, M, H⟩).sum
      ≤ (DiffCounts.sum ⟨E, M, H⟩) + (total - (E + M + H)) :=
        distribute_sum_le _ _ _ (by omega)
    _ = total := by simp only [DiffCounts.sum]; ring

theorem allocate_nonneg (total : ℤ) (w : DifficultyWeights) (ht : 0 < total)
    (he : 0 ≤ w.easy) (hm : 0 ≤ w.medium) (hh : 0 ≤ w.hard) (d : Difficulty) :
    0 ≤ (allocate_by_weight total w).get d := by
  have htq : (0:ℚ) ≤ (total : ℚ) := by exact_mod_cast ht.le
  have hE0 : (0:ℚ) ≤ (total : ℚ) * w.easy := mul_nonneg htq he
  have hM0 : (0:ℚ) ≤ (total : ℚ) * w.medium := mul_nonneg htq hm
  have hH0 : (0:ℚ) ≤ (total : ℚ) * w.hard := mul_nonneg htq hh
  simp only [allocate_by_weight, qmul_eq, intToQ_eq]
  rw [if_neg (show ¬ total ≤ 0 by omega), pyint_of_nonneg hE0, pyint_of_nonneg hM0,
    pyint_of_nonneg hH0]
  have hbase : 0 ≤ (DiffCounts.mk ⌊(total : ℚ) * w.easy⌋ ⌊(total : ℚ) * w.medium⌋
      ⌊(total : ℚ) * w.hard⌋).get d := by
    cases d <;> simp only [DiffCounts.get] <;> exact Int.floor_nonneg.mpr (by assumption)
  exact le_trans hbase (distribute_get_le _ _ _ d)

/-- Claim C2 counterexample: for `N = 10` and the all-zero weight table the
quota counts are `{Easy: 1, Medium: 1, Hard: 1}`, which sum to 3, not 10 —
the remainder loop hands out at most one extra unit per difficulty level. -/
theorem claim_C2_counterexample :
    allocate_by_weight 10 ⟨0, 0, 0⟩ = ⟨1, 1, 1⟩ ∧
    (allocate_by_weight 10 ⟨0, 0, 0⟩).sum ≠ 10 := by
  constructor <;> decide

/-- Claim C2 (amended): for every total `N > 0` and every difficulty-weight
table whose weights are nonnegative and sum to 1, the Quota Planner's
integer counts over Easy/Medium/Hard sum exactly to `N`. -/
theorem claim_C2 (total : ℤ) (w : DifficultyWeights) (ht : 0 < total)
    (he : 0 ≤ w.easy) (hm : 0 ≤ w.medium) (hh : 0 ≤ w.hard)
    (hsum : w.easy + w.medium + w.hard = 1) :
    (allocate_by_weight total w).sum = total :=
  allocate_sum_eq total w ht he hm hh hsum

/-- Witness for `claim_C2`: the default difficulty mix at `N = 10`. -/
theorem claim_C2_witness :
    (allocate_by_weight 10 DEFAULT_DIFFICULTY_MIX).sum = 10 :=
  claim_C2 10 DEFAULT_DIFFICULTY_MIX (by decide) (by decide) (by decide) (by decide)
    (by rw [← qadd_eq, ← qadd_eq]; decide)

/-- Claim C7 (confirmed): the Difficulty Policy is the exact three-case
map: no prior result gives the 0.40/0.40/0.20 mix, a prior `PASS` the
0.20/0.40/0.40 mix, and a prior `FAIL` the 0.60/0.30/0.10 mix. -/
theorem claim_C7 :
    difficulty_mix_for_result none = ⟨mkRat 40 100, mkRat 40 100, mkRat 20 100⟩ ∧
    (∀ r : ExamResult, r.result = "PASS" →
      difficulty_mix_for_result (some r) = ⟨mkRat 20 100, mkRat 40 100, mkRat 40 100⟩) ∧
    (∀ r : ExamResult, r.result = "FAIL" →
      difficulty_mix_for_result (some r) = ⟨mkRat 60 100, mkRat 30 100, mkRat 10 100⟩) := by
  refine ⟨by decide, ?_, ?_⟩
  · intro r hr
    simp only [difficulty_mix_for_result, hr]
    decide
  · intro r hr
    simp only [difficulty_mix_for_result, hr]
    decide

/-- Witness for `claim_C7`: concrete prior results with verdicts `PASS`
and `FAIL`. -/
theorem claim_C7_witness :
    difficulty_mix_for_result (some ⟨0, 0, 0, "PASS", [], []⟩)
      = ⟨mkRat 20 100, mkRat 40 100, mkRat 40 100⟩ ∧
    difficulty_mix_for_result (some ⟨0, 0, 0, "FAIL", [], []⟩)
      = ⟨mkRat 60 100, mkRat 30 100, mkRat 10 100⟩ :=
  ⟨claim_C7.2.1 ⟨0, 0, 0, "PASS", [], []⟩ rfl, claim_C7.2.2 ⟨0, 0, 0, "FAIL", [], []⟩ rfl⟩

theorem labels_equivalent_iff (a b : String) :
    labels_equivalent a b = true ↔
      (a ≠ "" ∧ b ≠ "" ∧
        (normalize_label a = normalize_label b ∨
         ((normalize_label a).data.getLast? = some 's' ∧
           String.mk (normalize_label a).data.dropLast = normalize_label b) ∨
         ((normalize_label b).data.getLast? = some 's' ∧
           String.mk (normalize_label b).data.dropLast = normalize_label a) ∨
         (normalize_major_candidate a ≠ "" ∧ normalize_major_candidate b ≠ "" ∧
           normalize_major_candidate a = normalize_major_candidate b))) := by
  rw [labels_equivalent]
  split_ifs <;> first
    | (simp_all; tauto)
    | simp_all

/-- Claim C8 counterexample: the claim's "or the major-candidate forms
match" clause, read as stated, declares "major" and "specialization"
equivalent (both major-candidate forms are the empty string after
qualifier stripping), but the code requires both candidate forms to be
non-empty and returns `False` for this pair. -/
theorem claim_C8_counterexample :
    spec_labels_equivalent "major" "specialization" = true ∧
    normalize_major_candidate "major" = "" ∧
    normalize_major_candidate "specialization" = "" ∧
    labels_equivalent "major" "specialization" = false := by
  refine ⟨by decide, by decide, by decide, by decide⟩

/-- Claim C8 (amended): label equivalence holds exactly when the
normalized forms match, or one normalized form is the other with a
trailing `s` removed, or the major-candidate forms are non-empty and
match; "Social Science" is equivalent to "SocSci", "Mathematics Major" to
"Math", "English" is not equivalent to "ProfEd", and an empty label is
equivalent to nothing. -/
theorem claim_C8 :
    (∀ a b : String, labels_equivalent a b = true ↔
      (a ≠ "" ∧ b ≠ "" ∧
        (normalize_label a = normalize_label b ∨
         ((normalize_label a).data.getLast? = some 's' ∧
           String.mk (normalize_label a).data.dropLast = normalize_label b) ∨
         ((normalize_label b).data.getLast? = some 's' ∧
           String.mk (normalize_label b).data.dropLast = normalize_label a) ∨
         (normalize_major_candidate a ≠ "" ∧ normalize_major_candidate b ≠ "" ∧
           normalize_major_candidate a = normalize_major_candidate b)))) ∧
    labels_equivalent "Social Science" "SocSci" = true ∧
    labels_equivalent "Mathematics Major" "Math" = true ∧
    labels_equivalent "English" "ProfEd" = false ∧
    (∀ b : String, labels_equivalent "" b = false ∧ labels_equivalent b "" = false) := by
  refine ⟨labels_equivalent_iff, by decide, by decide, by decide, ?_⟩
  intro b
  constructor
  · simp [labels_equivalent]
  · rw [labels_equivalent]
    rw [if_pos (Or.inr rfl)]

/-- Witness for `claim_C8`: the equivalence evaluated at the concrete
pair from scenario D. -/
theorem claim_C8_witness :
    labels_equivalent "Social Science" "SocSci" = true ∧
    labels_equivalent "" "Math" = false :=
  ⟨claim_C8.2.1, (claim_C8.2.2.2.2 "Math").1⟩

theorem submit_exam_total (bank : List Question) (profile : StudentProfile)
    (answers : List (ℕ × String)) :
    (submit_exam bank profile answers).total = answers.length := rfl

theorem submit_exam_score (bank : List Question) (profile : StudentProfile)
    (answers : List (ℕ × String)) :
    (submit_exam bank profile answers).score
      = (answers.foldl (score_step bank profile) ⟨0, [], []⟩).score := rfl

theorem submit_exam_result (bank : List Question) (profile : StudentProfile)
    (answers : List (ℕ × String)) :
    (submit_exam bank profile answers).result =
      if profile.required_passing_threshold ≤ (submit_exam bank profile answers).percentage
      then "PASS" else "FAIL" := rfl

theorem submit_exam_percentage (bank : List Question) (profile : StudentProfile)
    (answers : List (ℕ × String)) :
    (submit_exam bank profile answers).percentage =
      if answers.length ≠ 0 then
        pyRound2 ((((answers.foldl (score_step bank profile) ⟨0, [], []⟩).score : ℚ)
          / (answers.length : ℚ)) * 100)
      else 0 := by
  simp only [submit_exam, qmul_eq, intToQ_eq, Rat.mkRat_eq_div]
  push_cast
  rfl

theorem score_step_stale (bank : List Question) (profile : StudentProfile)
    (acc : ScoreAcc) (i : ℕ) (letter : String)
    (h : bank.find? (fun q => q._id = i) = none) :
    score_step bank profile acc (i, letter) = acc := by
  simp [score_step, h]

theorem score_foldl_correct (bank : List Question) (profile : StudentProfile)
    (answers : List (ℕ × String)) (acc : ScoreAcc)
    (h : ∀ a ∈ answers,
      ∃ q, bank.find? (fun q' => q'._id = a.1) = some q ∧ a.2 = q.answer) :
    (answers.foldl (score_step bank profile) acc).score = acc.score + answers.length := by
  induction answers generalizing acc with
  | nil => simp
  | cons a rest ih =>
    obtain ⟨q, hq, ha⟩ := h a (List.mem_cons_self a rest)
    have hstep : (score_step bank profile acc a).score = acc.score + 1 := by
      simp [score_step, hq, ha]
    rw [List.foldl_cons, ih _ (fun x hx => h x (List.mem_cons_of_mem _ hx)), hstep,
      List.length_cons]
    omega

/-- Claim C5 (confirmed): the Scorer sets `total` to the number of
submitted answers, computes `percentage = round(score/total*100, 2)` when
`total > 0` and `0` when `total = 0`, gives the verdict `PASS` exactly
when the percentage reaches the profile's passing threshold, and an empty
answer set yields `FAIL` whenever the threshold is positive. -/
theorem claim_C5 (bank : List Question) (profile : StudentProfile)
    (answers : List (ℕ × String)) :
    ((submit_exam bank profile answers).total = answers.length) ∧
    (answers.length ≠ 0 →
      (submit_exam bank profile answers).percentage =
        pyRound2 ((((submit_exam bank profile answers).score : ℚ)
          / ((submit_exam bank profile answers).total : ℚ)) * 100)) ∧
    (answers.length = 0 → (submit_exam bank profile answers).percentage = 0) ∧
    ((submit_exam bank profile answers).result = "PASS" ↔
      profile.required_passing_threshold ≤ (submit_exam bank profile answers).percentage) ∧
    (answers = [] → 0 < profile.required_passing_threshold →
      (submit_exam bank profile answers).result = "FAIL") := by
  refine ⟨rfl, ?_, ?_, ?_, ?_⟩
  · intro hne
    rw [submit_exam_percentage, if_pos hne, submit_exam_score, submit_exam_total]
  · intro h0
    rw [submit_exam_percentage, if_neg (by omega)]
  · rw [submit_exam_result]
    constructor
    · intro hp
      by_contra hle
      rw [if_neg hle] at hp
      exact absurd hp (by decide)
    · intro hle
      rw [if_pos hle]
  · intro hemp hpos
    subst hemp
    rw [submit_exam_result, if_neg ?_]
    rw [submit_exam_percentage]
    simp only [List.length_nil, ne_eq, not_true_eq_false, if_false]
    exact not_le.mpr hpos

/-- Witness for `claim_C5`: the empty answer set against a threshold of
60 scores percentage 0 and verdict `FAIL`. -/
theorem claim_C5_witness :
    (submit_exam [] wProfCLE []).percentage = 0 ∧
    (submit_exam [] wProfCLE []).result = "FAIL" :=
  ⟨(claim_C5 [] wProfCLE []).2.2.1 rfl,
   (claim_C5 [] wProfCLE []).2.2.2.2 rfl (by decide)⟩

/-- Claim C6 (confirmed): if every answered question id is found in the
bank and every submitted letter equals the stored correct letter, then
`score = total`, `percentage = 100.00`, and the verdict is `PASS` whenever
the profile's threshold is at most 100. -/
theorem claim_C6 (bank : List Question) (profile : StudentProfile)
    (answers : List (ℕ × String)) (hne : answers ≠ [])
    (hall : ∀ a ∈ answers,
      ∃ q, bank.find? (fun q' => q'._id = a.1) = some q ∧ a.2 = q.answer) :
    (submit_exam bank profile answers).score = (submit_exam bank profile answers).total ∧
    (submit_exam bank profile answers).percentage = 100 ∧
    (profile.required_passing_threshold ≤ 100 →
      (submit_exam bank profile answers).result = "PASS") := by
  have hlen : answers.length ≠ 0 := fun h => hne (List.length_eq_zero.mp h)
  have hsc : (submit_exam bank profile answers).score = answers.length := by
    rw [submit_exam_score, score_foldl_correct bank profile answers _ hall]
    show 0 + answers.length = answers.length
    omega
  have hpct : (submit_exam bank profile answers).percentage = 100 := by
    rw [submit_exam_percentage, if_pos hlen, ← submit_exam_score, hsc]
    have : ((answers.length : ℚ) / (answers.length : ℚ)) * 100 = 100 := by
      rw [div_self (by exact_mod_cast hlen), one_mul]
    rw [this]
    decide
  refine ⟨by rw [hsc, submit_exam_total], hpct, ?_⟩
  intro hth
  rw [submit_exam_result, hpct, if_pos hth]

/-- Witness for `claim_C6`: a single correctly-answered question. -/
theorem claim_C6_witness :
    (submit_exam [wBankQ] wProfCLE [(1, "A")]).score
      = (submit_exam [wBankQ] wProfCLE [(1, "A")]).total ∧
    (submit_exam [wBankQ] wProfCLE [(1, "A")]).percentage = 100 ∧
    (submit_exam [wBankQ] wProfCLE [(1, "A")]).result = "PASS" := by
  have h := claim_C6 [wBankQ] wProfCLE [(1, "A")] (by decide) ?_
  · exact ⟨h.1, h.2.1, h.2.2 (by decide)⟩
  · intro a ha
    rw [List.mem_singleton] at ha
    subst ha
    exact ⟨wBankQ, by decide, by decide⟩

/-- Claim C9 counterexample: with a bank holding one question (answer
`A`) and 107 submitted answers (1 correct, 106 stale), the percentage is
0.93; appending one more stale reference keeps the percentage at 0.93, so
a stale reference does not always lower the computed (rounded)
percentage. -/
theorem claim_C9_counterexample :
    (submit_exam [wBankQ] wProfCLE staleAnswers).score = 1 ∧
    (submit_exam [wBankQ] wProfCLE staleAnswers).percentage = mkRat 93 100 ∧
    (submit_exam [wBankQ] wProfCLE (staleAnswers ++ [(200, "A")])).total
      = (submit_exam [wBankQ] wProfCLE staleAnswers).total + 1 ∧
    (submit_exam [wBankQ] wProfCLE (staleAnswers ++ [(200, "A")])).percentage
      = (submit_exam [wBankQ] wProfCLE staleAnswers).percentage := by
  refine ⟨by decide, by decide, by decide, by decide⟩

/-- Claim C9 (amended): the Scorer fixes `total` to the number of
submitted answers before any bank lookup; an answered question id that is
missing from the bank is skipped for the score, the bucket statistics and
the incorrect-question list, but still counts toward `total`, and
therefore the computed percentage never increases (it can stay equal
after rounding). -/
theorem claim_C9 (bank : List Question) (profile : StudentProfile)
    (answers : List (ℕ × String)) (s : ℕ) (letter : String)
    (hstale : bank.find? (fun q => q._id = s) = none) :
    (submit_exam bank profile (answers ++ [(s, letter)])).total = answers.length + 1 ∧
    (submit_exam bank profile (answers ++ [(s, letter)])).score
      = (submit_exam bank profile answers).score ∧
    (submit_exam bank profile (answers ++ [(s, letter)])).subject_performance
      = (submit_exam bank profile answers).subject_performance ∧
    (submit_exam bank profile (answers ++ [(s, letter)])).incorrect_questions
      = (submit_exam bank profile answers).incorrect_questions ∧
    (submit_exam bank profile (answers ++ [(s, letter)])).percentage
      ≤ (submit_exam bank profile answers).percentage := by
  have hacc : (answers ++ [(s, letter)]).foldl (score_step bank profile) ⟨0, [], []⟩
      = answers.foldl (score_step bank profile) ⟨0, [], []⟩ := by
    rw [List.foldl_append, List.foldl_cons, List.foldl_nil,
      score_step_stale bank profile _ s letter hstale]
  refine ⟨by rw [submit_exam_total, List.length_append, List.length_cons, List.length_nil], ?_, ?_, ?_, ?_⟩
  · rw [submit_exam_score, submit_exam_score, hacc]
  · show ((answers ++ [(s, letter)]).foldl (score_step bank profile) ⟨0, [], []⟩).subject_stats
      = (answers.foldl (score_step bank profile) ⟨0, [], []⟩).subject_stats
    rw [hacc]
  · show ((answers ++ [(s, letter)]).foldl (score_step bank profile) ⟨0, [], []⟩).incorrect
      = (answers.foldl (score_step bank profile) ⟨0, [], []⟩).incorrect
    rw [hacc]
  · rw [submit_exam_percentage, submit_exam_percentage, hacc]
    rcases Nat.eq_zero_or_pos answers.length with hz | hpos
    · rw [if_pos (by simp), if_neg (by omega)]
      have hz' : answers = [] := List.length_eq_zero.mp hz
      subst hz'
      simp only [List.nil_append, List.foldl_cons, List.foldl_nil,
        score_step_stale bank profile _ s letter hstale]
      show pyRound2 ((((0:ℕ) : ℚ) / (([(s, letter)].length : ℕ) : ℚ)) * 100) ≤ 0
      norm_num
      decide
    · rw [if_pos (by simp), if_pos (by omega)]
      apply pyRound2_mono
      have hsc : (0:ℚ) ≤ ((answers.foldl (score_step bank profile) ⟨0, [], []⟩).score : ℚ) := by
        positivity
      have hlq : (0:ℚ) < (answers.length : ℚ) := by exact_mod_cast hpos
      have hlq1 : (answers.length : ℚ) ≤ ((answers ++ [(s, letter)]).length : ℚ) := by
        have : answers.length ≤ (answers ++ [(s, letter)]).length := by simp
        exact_mod_cast this
      apply mul_le_mul_of_nonneg_right _ (by norm_num : (0:ℚ) ≤ 100)
      exact div_le_div_of_nonneg_left hsc hlq hlq1 |>.trans_eq rfl

/-- Witness for `claim_C9`: one answered question plus one stale
reference. -/
theorem claim_C9_witness :
    (submit_exam [wBankQ] wProfCLE ([(1, "A")] ++ [(5, "B")])).total = 2 ∧
    (submit_exam [wBankQ] wProfCLE ([(1, "A")] ++ [(5, "B")])).score
      = (submit_exam [wBankQ] wProfCLE [(1, "A")]).score ∧
    (submit_exam [wBankQ] wProfCLE ([(1, "A")] ++ [(5, "B")])).percentage
      ≤ (submit_exam [wBankQ] wProfCLE [(1, "A")]).percentage := by
  have h := claim_C9 [wBankQ] wProfCLE [(1, "A")] 5 "B" (by decide)
  exact ⟨by simpa using h.1, h.2.1, h.2.2.2.2⟩

theorem subperm_nodup {α : Type} {l₁ l₂ : List α} (h : List.Subperm l₁ l₂)
    (h₂ : l₂.Nodup) : l₁.Nodup := by
  obtain ⟨l, hp, hsub⟩ := h
  exact hp.nodup_iff.mp (List.Nodup.sublist hsub h₂)

theorem subperm_map {α β : Type} (f : α → β) {l₁ l₂ : List α}
    (h : List.Subperm l₁ l₂) : List.Subperm (l₁.map f) (l₂.map f) := by
  obtain ⟨l, hp, hsub⟩ := h
  exact ⟨l.map f, hp.map f, hsub.map f⟩

theorem takeSampler_isSampler : IsSampler takeSampler := by
  intro l k hk
  refine ⟨?_, (List.take_sublist k l).subperm⟩
  rw [takeSampler, List.length_take]
  omega

theorem options_sublist (pool : List Question) (d : Difficulty) (sids : List ℕ) :
    List.Sublist ((groupsOf pool d).filter (fun q => q._id ∉ sids)) pool :=
  List.Sublist.trans (List.filter_sublist _) (List.filter_sublist _)

theorem selectLevel_length {sample : List Question → ℕ → List Question}
    (hs : IsSampler sample) (groups : Difficulty → List Question)
    (desired : DiffCounts) (st : List Question × List ℕ) (d : Difficulty) :
    ((selectLevel sample groups desired st d).1.length : ℤ)
      ≤ (st.1.length : ℤ) + max (desired.get d) 0 := by
  rw [selectLevel]
  split
  · simp only [le_add_iff_nonneg_right, le_max_iff, le_refl, or_true]
  · rename_i hneed
    simp only [List.length_append]
    split
    · rename_i hlen
      push_cast
      omega
    · rename_i hlen
      have hk : (desired.get d).toNat ≤ ((groups d).filter (fun q => q._id ∉ st.2)).length := by
        omega
      have := (hs _ _ hk).1
      rw [this]
      push_cast
      omega

theorem selectLevel_inv {sample : List Question → ℕ → List Question}
    (hs : IsSampler sample) (pool : List Question)
    (desired : DiffCounts) (st : List Question × List ℕ) (d : Difficulty)
    (hmem : ∀ q ∈ st.1, q ∈ pool)
    (hids : ∀ i, i ∈ st.2 ↔ i ∈ st.1.map Question._id)
    (hnd : (pool.map Question._id).Nodup → (st.1.map Question._id).Nodup) :
    (∀ q ∈ (selectLevel sample (groupsOf pool) desired st d).1, q ∈ pool) ∧
    (∀ i, i ∈ (selectLevel sample (groupsOf pool) desired st d).2 ↔
      i ∈ (selectLevel sample (groupsOf pool) desired st d).1.map Question._id) ∧
    ((pool.map Question._id).Nodup →
      ((selectLevel sample (groupsOf pool) desired st d).1.map Question._id).Nodup) := by
  rw [selectLevel]
  split
  · exact ⟨hmem, hids, hnd⟩
  · rename_i hneed
    set options := (groupsOf pool d).filter (fun q => q._id ∉ st.2) with hoptdef
    have hopt_pool : ∀ q ∈ options, q ∈ pool :=
      fun q hq => (options_sublist pool d st.2).subset hq
    have hopt_not : ∀ q ∈ options, q._id ∉ st.2 := by
      intro q hq
      have := List.of_mem_filter hq
      simpa using this
    set chosen := if ((options.length : ℤ)) ≤ desired.get d then options
      else sample options (desired.get d).toNat with hchosendef
    have hchosen_sub : ∀ q ∈ chosen, q ∈ options := by
      rw [hchosendef]
      split
      · exact fun q hq => hq
      · rename_i hlen
        have hk : (desired.get d).toNat ≤ options.length := by omega
        exact fun q hq => (hs _ _ hk).2.subset hq
    have hchosen_nodup : (pool.map Question._id).Nodup →
        (chosen.map Question._id).Nodup := by
      intro hpool
      have hopts_nodup : (options.map Question._id).Nodup :=
        List.Nodup.sublist ((options_sublist pool d st.2).map Question._id) hpool
      rw [hchosendef]
      split
      · exact hopts_nodup
      · rename_i hlen
        exact subperm_nodup (subperm_map Question._id (hs _ _ (by omega)).2) hopts_nodup
    refine ⟨?_, ?_, ?_⟩
    · intro q hq
      rcases List.mem_append.mp hq with hq | hq
      · exact hmem q hq
      · exact hopt_pool q (hchosen_sub q hq)
    · intro i
      simp only [List.mem_append, List.map_append, hids i]
    · intro hpool
      rw [List.map_append, List.nodup_append]
      refine ⟨hnd hpool, hchosen_nodup hpool, ?_⟩
      intro i hi1 hi2
      rw [List.mem_map] at hi2
      obtain ⟨q, hq, hqid⟩ := hi2
      have : q._id ∉ st.2 := hopt_not q (hchosen_sub q hq)
      rw [hids] at this
      rw [hqid] at this
      exact this hi1

theorem select_fold_inv {sample : List Question → ℕ → List Question}
    (hs : IsSampler sample) (pool : List Question) (desired : DiffCounts) :
    (∀ q ∈ ([Difficulty.easy, Difficulty.medium, Difficulty.hard].foldl
        (selectLevel sample (groupsOf pool) desired) ([], [])).1, q ∈ pool) ∧
    (∀ i, i ∈ ([Difficulty.easy, Difficulty.medium, Difficulty.hard].foldl
        (selectLevel sample (groupsOf pool) desired) ([], [])).2 ↔
      i ∈ ([Difficulty.easy, Difficulty.medium, Difficulty.hard].foldl
        (selectLevel sample (groupsOf pool) desired) ([], [])).1.map Question._id) ∧
    ((pool.map Question._id).Nodup →
      (([Difficulty.easy, Difficulty.medium, Difficulty.hard].foldl
        (selectLevel sample (groupsOf pool) desired) ([], [])).1.map Question._id).Nodup) ∧
    ((([Difficulty.easy, Difficulty.medium, Difficulty.hard].foldl
        (selectLevel sample (groupsOf pool) desired) ([], [])).1.length : ℤ)
      ≤ max (desired.get Difficulty.easy) 0 + max (desired.get Difficulty.medium) 0
        + max (desired.get Difficulty.hard) 0) := by
  have h0mem : ∀ q ∈ (([], []) : List Question × List ℕ).1, q ∈ pool := by simp
  have h0ids : ∀ i : ℕ, i ∈ (([], []) : List Question × List ℕ).2 ↔
      i ∈ (([], []) : List Question × List ℕ).1.map Question._id := by simp
  have h0nd : (pool.map Question._id).Nodup →
      ((([], []) : List Question × List ℕ).1.map Question._id).Nodup := by simp
  have s1 := selectLevel_inv hs pool desired ([], []) Difficulty.easy h0mem h0ids h0nd
  have s2 := selectLevel_inv hs pool desired _ Difficulty.medium s1.1 s1.2.1 s1.2.2
  have s3 := selectLevel_inv hs pool desired _ Difficulty.hard s2.1 s2.2.1 s2.2.2
  have l1 := selectLevel_length hs (groupsOf pool) desired ([], []) Difficulty.easy
  have l2 := selectLevel_length hs (groupsOf pool) desired
    (selectLevel sample (groupsOf pool) desired ([], []) Difficulty.easy) Difficulty.medium
  have l3 := selectLevel_length hs (groupsOf pool) desired
    (selectLevel sample (groupsOf pool) desired
      (selectLevel sample (groupsOf pool) desired ([], []) Difficulty.easy)
      Difficulty.medium) Difficulty.hard
  have hfold : [Difficulty.easy, Difficulty.medium, Difficulty.hard].foldl
      (selectLevel sample (groupsOf pool) desired) ([], [])
      = selectLevel sample (groupsOf pool) desired
          (selectLevel sample (groupsOf pool) desired
            (selectLevel sample (groupsOf pool) desired ([], []) Difficulty.easy)
            Difficulty.medium) Difficulty.hard := rfl
  rw [hfold]
  refine ⟨s3.1, s3.2.1, s3.2.2, ?_⟩
  simp only [List.length_nil, Nat.cast_zero] at l1
  linarith

theorem length_filter_not_sids (pool : List Question)
    (hpool : (pool.map Question._id).Nodup)
    (sel : List Question) (sids : List ℕ)
    (hmem : ∀ q ∈ sel, q ∈ pool)
    (hsnd : (sel.map Question._id).Nodup)
    (hiff : ∀ i, i ∈ sids ↔ i ∈ sel.map Question._id) :
    (pool.filter (fun q => q._id ∉ sids)).length + sel.length = pool.length := by
  have hsplit := List.length_eq_length_filter_add (l := pool) (fun q => decide (q._id ∈ sids))
  have hnotc : pool.filter (fun q => q._id ∉ sids)
      = pool.filter (fun q => !decide (q._id ∈ sids)) := by
    apply List.filter_congr
    intro q _
    simp
  have hmapped : (pool.filter (fun q => decide (q._id ∈ sids))).map Question._id
      = (pool.map Question._id).filter (fun i => decide (i ∈ sids)) := by
    rw [List.filter_map]
    rfl
  have hperm : List.Perm ((pool.map Question._id).filter (fun i => decide (i ∈ sids)))
      (sel.map Question._id) := by
    rw [List.perm_ext_iff_of_nodup (List.Nodup.filter _ hpool) hsnd]
    intro i
    rw [List.mem_filter]
    constructor
    · intro hif
      exact (hiff i).mp (by simpa using hif.2)
    · intro hi
      refine ⟨?_, by simpa using (hiff i).mpr hi⟩
      rw [List.mem_map] at hi ⊢
      obtain ⟨q, hq, hqe⟩ := hi
      exact ⟨q, hmem q hq, hqe⟩
  have hlen1 : (pool.filter (fun q => decide (q._id ∈ sids))).length = sel.length := by
    have := hperm.length_eq
    rw [← hmapped] at this
    simpa using this
  rw [hnotc]
  omega

theorem select_error_shape {sample : List Question → ℕ → List Question}
    (pool : List Question) (total : ℤ) (weights : DifficultyWeights)
    (e : InsufficientPool)
    (h : select_questions_with_mix sample pool total weights = .error e) :
    e.needed = total ∧ e.available = pool.length := by
  simp only [select_questions_with_mix] at h
  split_ifs at h
  · injection h with h2
    subst h2
    exact ⟨rfl, rfl⟩
  · injection h with h2
    subst h2
    exact ⟨rfl, rfl⟩

theorem select_ok_facts {sample : List Question → ℕ → List Question}
    (hs : IsSampler sample) (pool : List Question) (total : ℤ)
    (weights : DifficultyWeights) (sel : List Question)
    (h : select_questions_with_mix sample pool total weights = .ok sel) :
    (∀ q ∈ sel, q ∈ pool) ∧
    ((pool.map Question._id).Nodup → (sel.map Question._id).Nodup) := by
  have hst := select_fold_inv hs pool (allocate_by_weight total weights)
  simp only [select_questions_with_mix] at h
  split_ifs at h
  · simp only [Except.ok.injEq] at h
    subst h
    simp
  · simp only [Except.ok.injEq] at h
    subst h
    set stq := [Difficulty.easy, Difficulty.medium, Difficulty.hard].foldl
      (selectLevel sample (groupsOf pool) (allocate_by_weight total weights)) ([], [])
      with hstq
    set rp := pool.filter (fun q => q._id ∉ stq.2) with hrp
    have hrp_pool : ∀ q ∈ rp, q ∈ pool := fun q hq => (List.filter_sublist pool).subset hq
    have hrp_not : ∀ q ∈ rp, q._id ∉ stq.2 := by
      intro q hq
      have := List.of_mem_filter hq
      simpa using this
    have hrp_nodup : (pool.map Question._id).Nodup → (rp.map Question._id).Nodup :=
      fun hp => List.Nodup.sublist ((List.filter_sublist pool).map Question._id) hp
    have hk : (total - (stq.1.length : ℤ)).toNat ≤ rp.length := by omega
    constructor
    · intro q hq
      rcases List.mem_append.mp hq with hq | hq
      · exact hst.1 q hq
      · exact hrp_pool q ((hs rp _ hk).2.subset hq)
    · intro hpool
      rw [List.map_append, List.nodup_append]
      refine ⟨hst.2.2.1 hpool, subperm_nodup (subperm_map Question._id (hs rp _ hk).2)
        (hrp_nodup hpool), ?_⟩
      intro i hi1 hi2
      rw [List.mem_map] at hi2
      obtain ⟨q, hq, hqid⟩ := hi2
      have hni : q._id ∉ stq.2 := hrp_not q ((hs rp _ hk).2.subset hq)
      rw [hst.2.1, hqid] at hni
      exact hni hi1
  · simp only [Except.ok.injEq] at h
    subst h
    exact ⟨hst.1, hst.2.2.1⟩

theorem select_ok_length {sample : List Question → ℕ → List Question}
    (hs : IsSampler sample) (pool : List Question) (total : ℤ)
    (weights : DifficultyWeights) (sel : List Question)
    (he : 0 ≤ weights.easy) (hm : 0 ≤ weights.medium) (hh : 0 ≤ weights.hard)
    (hsum : weights.easy + weights.medium + weights.hard ≤ 1) (ht : 0 < total)
    (h : select_questions_with_mix sample pool total weights = .ok sel) :
    (sel.length : ℤ) = total := by
  have hnnE := allocate_nonneg total weights ht he hm hh Difficulty.easy
  have hnnM := allocate_nonneg total weights ht he hm hh Difficulty.medium
  have hnnH := allocate_nonneg total weights ht he hm hh Difficulty.hard
  have hsle := allocate_sum_le total weights ht he hm hh hsum
  have hst := select_fold_inv hs pool (allocate_by_weight total weights)
  have hsum_eq : (allocate_by_weight total weights).get Difficulty.easy
      + (allocate_by_weight total weights).get Difficulty.medium
      + (allocate_by_weight total weights).get Difficulty.hard
      = (allocate_by_weight total weights).sum := rfl
  have hstlen := hst.2.2.2
  rw [max_eq_left hnnE, max_eq_left hnnM, max_eq_left hnnH] at hstlen
  simp only [select_questions_with_mix] at h
  split_ifs at h
  · simp only [Except.ok.injEq] at h
    subst h
    simp only [List.length_nil, Nat.cast_zero]
    omega
  · simp only [Except.ok.injEq] at h
    subst h
    set stq := [Difficulty.easy, Difficulty.medium, Difficulty.hard].foldl
      (selectLevel sample (groupsOf pool) (allocate_by_weight total weights)) ([], [])
      with hstq
    set rp := pool.filter (fun q => q._id ∉ stq.2) with hrp
    have hk : (total - (stq.1.length : ℤ)).toNat ≤ rp.length := by omega
    have hlen := (hs rp _ hk).1
    rw [List.length_append, hlen]
    omega
  · simp only [Except.ok.injEq] at h
    subst h
    omega

theorem select_isOk {sample : List Question → ℕ → List Question}
    (hs : IsSampler sample) (pool : List Question) (total : ℤ)
    (weights : DifficultyWeights)
    (hpool : (pool.map Question._id).Nodup)
    (hlen : total ≤ (pool.length : ℤ)) :
    (select_questions_with_mix sample pool total weights).isOk = true := by
  have hst := select_fold_inv hs pool (allocate_by_weight total weights)
  have hcnt := length_filter_not_sids pool hpool
    ([Difficulty.easy, Difficulty.medium, Difficulty.hard].foldl
      (selectLevel sample (groupsOf pool) (allocate_by_weight total weights)) ([], [])).1
    ([Difficulty.easy, Difficulty.medium, Difficulty.hard].foldl
      (selectLevel sample (groupsOf pool) (allocate_by_weight total weights)) ([], [])).2
    hst.1 (hst.2.2.1 hpool) hst.2.1
  simp only [select_questions_with_mix]
  split_ifs with h1 h2 h3 h4
  · rfl
  · exact absurd h2 (by omega)
  · exfalso
    omega
  · rfl
  · rfl

/-- Claim C3 counterexample: with the weight table `{Easy: 1, Medium: 1,
Hard: 0}` — which the claim admits since it quantifies over every weight
table — a pool of four questions and target 2 make the Sampler return all
four questions: the per-level quotas sum to 4 > 2 and the surplus is never
trimmed. -/
theorem claim_C3_counterexample :
    select_questions_with_mix takeSampler [cq1, cq2, cq3, cq4] 2 ⟨1, 1, 0⟩
      = .ok [cq1, cq2, cq3, cq4] ∧
    [cq1, cq2, cq3, cq4].length ≠ 2 := by
  exact ⟨by decide, by decide⟩

/-- Claim C3 (amended): for every pool, every target > 0 and every weight
table whose weights are nonnegative and sum to at most 1, the Sampler
either returns a list of exactly `target` questions or fails with an
insufficient-question-bank error carrying the needed count (the target)
and the available count (the pool size); it never returns a list of any
other length. -/
theorem claim_C3 (sample : List Question → ℕ → List Question)
    (pool : List Question) (total : ℤ) (weights : DifficultyWeights)
    (hs : IsSampler sample)
    (he : 0 ≤ weights.easy) (hm : 0 ≤ weights.medium) (hh : 0 ≤ weights.hard)
    (hsum : weights.easy + weights.medium + weights.hard ≤ 1) (ht : 0 < total) :
    (∀ sel, select_questions_with_mix sample pool total weights = .ok sel →
      (sel.length : ℤ) = total) ∧
    (∀ e, select_questions_with_mix sample pool total weights = .error e →
      e.needed = total ∧ e.available = pool.length) :=
  ⟨fun sel h => select_ok_length hs pool total weights sel he hm hh hsum ht h,
   fun e h => select_error_shape pool total weights e h⟩

/-- Witness for `claim_C3`: the default mix on a two-question pool with
target 2 returns exactly the two questions. -/
theorem claim_C3_witness :
    select_questions_with_mix takeSampler [cq1, cq2] 2 DEFAULT_DIFFICULTY_MIX
      = .ok [cq1, cq2] ∧
    (([cq1, cq2].length : ℤ)) = 2 := by
  have h := (claim_C3 takeSampler [cq1, cq2] 2 DEFAULT_DIFFICULTY_MIX
    takeSampler_isSampler (by decide) (by decide) (by decide)
    (by rw [← qadd_eq, ← qadd_eq]; decide) (by decide)).1
  exact ⟨by decide, h [cq1, cq2] (by decide)⟩

/-- Claim C10 counterexample: a pool that holds the same question twice
(`len(pool) = 2 ≥ target = 2`, target > 0) makes the Sampler fail in the
cross-difficulty backfill branch: the Easy quota picks one copy, the
Medium quota is unsatisfiable, and the remaining pool (both copies share
one id) is empty while one slot is still unfilled. -/
theorem claim_C10_counterexample :
    select_questions_with_mix takeSampler [cq1, cq1] 2 DEFAULT_DIFFICULTY_MIX
      = .error ⟨2, 2⟩ ∧
    [cq1, cq1].length = 2 := by
  exact ⟨by decide, by decide⟩

/-- Claim C10 (amended): for every pool whose question ids are pairwise
distinct (as holds for every pool drawn from the question bank), every
target with `0 < target ≤ len(pool)` and every weight table, the Sampler
never fails: the selected questions always form a duplicate-free subset
of the pool, so the backfill error branch is unreachable. -/
theorem claim_C10 (sample : List Question → ℕ → List Question)
    (pool : List Question) (total : ℤ) (weights : DifficultyWeights)
    (hs : IsSampler sample) (hpool : (pool.map Question._id).Nodup)
    (_ht : 0 < total) (hlen : total ≤ (pool.length : ℤ)) :
    (select_questions_with_mix sample pool total weights).isOk = true :=
  select_isOk hs pool total weights hpool hlen

/-- Witness for `claim_C10`: a duplicate-free two-question pool with
target 2 never fails. -/
theorem claim_C10_witness :
    (select_questions_with_mix takeSampler [cq1, cq2] 2 DEFAULT_DIFFICULTY_MIX).isOk
      = true :=
  claim_C10 takeSampler [cq1, cq2] 2 DEFAULT_DIFFICULTY_MIX
    takeSampler_isSampler (by decide) (by decide) (by decide)

theorem filter_ids_nodup (l : List Question) (p : Question → Bool)
    (h : (l.map Question._id).Nodup) : ((l.filter p).map Question._id).Nodup :=
  List.Nodup.sublist ((List.filter_sublist l).map Question._id) h

theorem append_ids_nodup {l1 l2 : List Question}
    (h1 : (l1.map Question._id).Nodup) (h2 : (l2.map Question._id).Nodup)
    (hdisj : ∀ q ∈ l2, q._id ∉ l1.map Question._id) :
    ((l1 ++ l2).map Question._id).Nodup := by
  rw [List.map_append, List.nodup_append]
  refine ⟨h1, h2, ?_⟩
  intro i hi1 hi2
  rw [List.mem_map] at hi2
  obtain ⟨q, hq, hqid⟩ := hi2
  exact hdisj q hq (hqid ▸ hi1)

theorem start_exam_let_nodup {sample : List Question → ℕ → List Question}
    (hs : IsSampler sample) (question_list : List Question) (profile : StudentProfile)
    (base_total extra_major_count : ℤ) (difficulty_mix : DifficultyWeights)
    (hnodup : (question_list.map Question._id).Nodup) (sel : List Question)
    (h : start_exam_let sample question_list profile base_total extra_major_count
      difficulty_mix = .ok sel) :
    (sel.map Question._id).Nodup ∧ ∀ q ∈ sel, q ∈ question_list := by
  simp only [start_exam_let] at h
  split_ifs at h with hp1 hextra hbucket
  · -- extra-major selection from the major bucket
    split at h
    · exact Except.noConfusion h
    · rename_i chosen1 hsel1
      have f1 := select_ok_facts hs _ _ _ _ hsel1
      have hm1 : ∀ q ∈ chosen1, q ∈ question_list := fun q hq =>
        (List.filter_sublist question_list).subset ((List.filter_sublist _).subset (f1.1 q hq))
      have hn1 : (chosen1.map Question._id).Nodup :=
        f1.2 (filter_ids_nodup _ _ (filter_ids_nodup _ _ hnodup))
      split_ifs at h
      split at h
      · exact Except.noConfusion h
      · rename_i chosen2 hsel2
        have f2 := select_ok_facts hs _ _ _ _ hsel2
        have hm2 : ∀ q ∈ chosen2, q ∈ question_list := fun q hq =>
          (List.filter_sublist question_list).subset
            ((List.filter_sublist _).subset (f2.1 q hq))
        have hn2 : (chosen2.map Question._id).Nodup :=
          f2.2 (filter_ids_nodup _ _ (filter_ids_nodup _ _ hnodup))
        have hd2 : ∀ q ∈ chosen2, q._id ∉ chosen1.map Question._id := by
          intro q hq
          have := List.of_mem_filter (f2.1 q hq)
          simpa using this
        split_ifs at h
        split at h
        · exact Except.noConfusion h
        · rename_i extra_chosen hsel3
          have f3 := select_ok_facts hs _ _ _ _ hsel3
          have hm3 : ∀ q ∈ extra_chosen, q ∈ question_list := fun q hq =>
            (List.filter_sublist question_list).subset
              ((List.filter_sublist _).subset (f3.1 q hq))
          have hn3 : (extra_chosen.map Question._id).Nodup :=
            f3.2 (filter_ids_nodup _ _ (filter_ids_nodup _ _ hnodup))
          have hd3 : ∀ q ∈ extra_chosen,
              q._id ∉ chosen1.map Question._id ++ chosen2.map Question._id := by
            intro q hq
            have := List.of_mem_filter (f3.1 q hq)
            simpa using this
          simp only [Except.ok.injEq] at h
          subst h
          constructor
          · rw [List.append_assoc]
            refine append_ids_nodup hn1 (append_ids_nodup hn2 hn3 ?_) ?_
            · intro q hq
              have := hd3 q hq
              rw [List.mem_append] at this
              tauto
            · intro q hq
              rcases List.mem_append.mp hq with hq | hq
              · exact hd2 q hq
              · have := hd3 q hq
                rw [List.mem_append] at this
                tauto
          · intro q hq
            rcases List.mem_append.mp hq with hq | hq
            · rcases List.mem_append.mp hq with hq | hq
              · exact hm1 q hq
              · exact hm2 q hq
            · exact hm3 q hq
  · -- extra-major step requested but the profile has no major bucket
    split at h
    · exact Except.noConfusion h
    · rename_i chosen1 hsel1
      have f1 := select_ok_facts hs _ _ _ _ hsel1
      have hm1 : ∀ q ∈ chosen1, q ∈ question_list := fun q hq =>
        (List.filter_sublist question_list).subset ((List.filter_sublist _).subset (f1.1 q hq))
      have hn1 : (chosen1.map Question._id).Nodup :=
        f1.2 (filter_ids_nodup _ _ (filter_ids_nodup _ _ hnodup))
      split_ifs at h
      split at h
      · exact Except.noConfusion h
      · rename_i chosen2 hsel2
        have f2 := select_ok_facts hs _ _ _ _ hsel2
        have hm2 : ∀ q ∈ chosen2, q ∈ question_list := fun q hq =>
          (List.filter_sublist question_list).subset
            ((List.filter_sublist _).subset (f2.1 q hq))
        have hn2 : (chosen2.map Question._id).Nodup :=
          f2.2 (filter_ids_nodup _ _ (filter_ids_nodup _ _ hnodup))
        have hd2 : ∀ q ∈ chosen2, q._id ∉ chosen1.map Question._id := by
          intro q hq
          have := List.of_mem_filter (f2.1 q hq)
          simpa using this
        split_ifs at h
        split at h
        · exact Except.noConfusion h
        · rename_i extra_chosen hsel3
          have f3 := select_ok_facts hs _ _ _ _ hsel3
          have hnil : extra_chosen = [] := by
            rw [List.eq_nil_iff_forall_not_mem]
            intro q hq
            have := (List.filter_sublist _).subset (f3.1 q hq)
            simp at this
          rw [hnil, List.append_nil] at h
          simp only [Except.ok.injEq] at h
          subst h
          constructor
          · exact append_ids_nodup hn1 hn2 hd2
          · intro q hq
            rcases List.mem_append.mp hq with hq | hq
            · exact hm1 q hq
            · exact hm2 q hq
  · -- no extra-major selection
    split at h
    · exact Except.noConfusion h
    · rename_i chosen1 hsel1
      have f1 := select_ok_facts hs _ _ _ _ hsel1
      have hm1 : ∀ q ∈ chosen1, q ∈ question_list := fun q hq =>
        (List.filter_sublist question_list).subset ((List.filter_sublist _).subset (f1.1 q hq))
      have hn1 : (chosen1.map Question._id).Nodup :=
        f1.2 (filter_ids_nodup _ _ (filter_ids_nodup _ _ hnodup))
      split_ifs at h
      split at h
      · exact Except.noConfusion h
      · rename_i chosen2 hsel2
        have f2 := select_ok_facts hs _ _ _ _ hsel2
        have hm2 : ∀ q ∈ chosen2, q ∈ question_list := fun q hq =>
          (List.filter_sublist question_list).subset
            ((List.filter_sublist _).subset (f2.1 q hq))
        have hn2 : (chosen2.map Question._id).Nodup :=
          f2.2 (filter_ids_nodup _ _ (filter_ids_nodup _ _ hnodup))
        have hd2 : ∀ q ∈ chosen2, q._id ∉ chosen1.map Question._id := by
          intro q hq
          have := List.of_mem_filter (f2.1 q hq)
          simpa using this
        simp only [Except.ok.injEq] at h
        subst h
        constructor
        · exact append_ids_nodup hn1 hn2 hd2
        · intro q hq
          rcases List.mem_append.mp hq with hq | hq
          · exact hm1 q hq
          · exact hm2 q hq

theorem start_exam_core_nodup {sample : List Question → ℕ → List Question}
    (hs : IsSampler sample) (question_list : List Question) (profile : StudentProfile)
    (base_total major_setting : ℤ) (latest : Option ExamResult)
    (hnodup : (question_list.map Question._id).Nodup) (sel : List Question)
    (h : start_exam_core sample question_list profile base_total major_setting latest
      = .ok sel) :
    (sel.map Question._id).Nodup ∧ ∀ q ∈ sel, q ∈ question_list := by
  simp only [start_exam_core] at h
  split_ifs at h
  · exact start_exam_let_nodup hs question_list profile base_total _ _ hnodup sel h
  · exact start_exam_let_nodup hs question_list profile base_total _ _ hnodup sel h
  · split at h
    · exact Except.noConfusion h
    · rename_i qs hsel
      simp only [Except.ok.injEq] at h
      subst h
      have f := select_ok_facts hs _ _ _ _ hsel
      exact ⟨f.2 hnodup, f.1⟩
  · split at h
    · exact Except.noConfusion h
    · rename_i qs hsel
      simp only [Except.ok.injEq] at h
      subst h
      have f := select_ok_facts hs _ _ _ _ hsel
      exact ⟨f.2 hnodup, f.1⟩

/-- Claim C4 (confirmed): for every successful Composer run over a
question list with pairwise-distinct ids, no question identifier appears
twice in the produced exam: the GenEd selection, the ProfEd selection
(and its cross-difficulty backfill inside the Sampler) and the
extra-major selection are pairwise disjoint in question id. -/
theorem claim_C4 (sample : List Question → ℕ → List Question)
    (question_list : List Question) (profile : StudentProfile)
    (base_total major_setting : ℤ) (latest : Option ExamResult)
    (hs : IsSampler sample)
    (hnodup : (question_list.map Question._id).Nodup) (sel : List Question)
    (h : start_exam_core sample question_list profile base_total major_setting latest
      = .ok sel) :
    (sel.map Question._id).Nodup :=
  (start_exam_core_nodup hs question_list profile base_total major_setting latest
    hnodup sel h).1

/-- Witness for `claim_C4`: a secondary-LET profile with major Math, base
total 2 and one extra major question selects GenEd, ProfEd and Math
questions with distinct ids. -/
theorem claim_C4_witness :
    ([wQG, wQP, wQM].map Question._id).Nodup :=
  claim_C4 takeSampler [wQG, wQP, wQM] wProfLET 2 1 none takeSampler_isSampler
    (by decide) [wQG, wQP, wQM] (by decide)

/-- Claim C1 (confirmed, response building modelled from the spec): every
successful composition returns exactly the selected questions projected to
their student-facing fields (id, prompt, the four option texts,
difficulty) in selection order, with pairwise-distinct ids, and the
projection never depends on the stored correct-answer letter. -/
theorem claim_C1 (sample : List Question → ℕ → List Question)
    (question_list : List Question) (profile : StudentProfile)
    (base_total major_setting : ℤ) (latest : Option ExamResult)
    (hs : IsSampler sample)
    (hnodup : (question_list.map Question._id).Nodup) (out : List StudentQuestion)
    (h : compose_exam sample question_list profile base_total major_setting latest
      = .ok out) :
    (∃ sel, start_exam_core sample question_list profile base_total major_setting latest
        = .ok sel ∧ out = sel.map to_student_view ∧ ∀ q ∈ sel, q ∈ question_list) ∧
    (out.map StudentQuestion.id).Nodup ∧
    (∀ (q : Question) (s : String), to_student_view { q with answer := s }
      = to_student_view q) := by
  rw [compose_exam] at h
  cases hcore : start_exam_core sample question_list profile base_total major_setting
      latest with
  | error e =>
    rw [hcore] at h
    exact Except.noConfusion h
  | ok sel =>
    rw [hcore] at h
    simp only [Except.map, Except.ok.injEq] at h
    subst h
    have hfacts := start_exam_core_nodup hs question_list profile base_total
      major_setting latest hnodup sel hcore
    refine ⟨⟨sel, rfl, rfl, hfacts.2⟩, ?_, fun q s => rfl⟩
    have hm : (sel.map to_student_view).map StudentQuestion.id
        = sel.map Question._id := by
      rw [List.map_map]
      rfl
    rw [hm]
    exact hfacts.1

/-- Witness for `claim_C1`: the concrete LET composition returns the three
student views with distinct ids and no answer field. -/
theorem claim_C1_witness :
    (∃ sel, start_exam_core takeSampler [wQG, wQP, wQM] wProfLET 2 1 none
        = .ok sel ∧
      [to_student_view wQG, to_student_view wQP, to_student_view wQM]
        = sel.map to_student_view ∧ ∀ q ∈ sel, q ∈ [wQG, wQP, wQM]) ∧
    (([to_student_view wQG, to_student_view wQP, to_student_view wQM].map
      StudentQuestion.id).Nodup) ∧
    to_student_view { wQG with answer := "Z" } = to_student_view wQG := by
  have h := claim_C1 takeSampler [wQG, wQP, wQM] wProfLET 2 1 none
    takeSampler_isSampler (by decide)
    [to_student_view wQG, to_student_view wQP, to_student_view wQM] (by decide)
  exact ⟨h.1, h.2.1, h.2.2 wQG "Z"⟩

end ExamEngine
